import Mathlib

/-!
# ruby-prof: the allocation-count measurement (`ext/ruby_prof/rp_measure_allocations.c`)

A shallow embedding of `measure_allocations`, `prof_measure_allocations` and
`rp_init_measure_allocations`, and theorems about the value Ruby code sees from
`RubyProf::Measure::Allocations.measure`.

Modelling conventions.

* The preprocessor symbols the file branches on are the fields of `Build`.
* The host runtime is the record `Host`: what each of its functions answers at the
  moment of a call.  Every call made to the host is logged as a `HostCall`.
* The function-local `static VALUE total_alloc_symbol` is passed in and out explicitly.
* Machine integers are natural numbers reduced modulo `2 ^ w`.
* Every `double` that arises in this file is the image of an unsigned integer, hence a
  non-negative integer itself; it is represented by its exact value, a natural number.
  The conversion integer -> `double` is IEEE 754 binary64 rounding to nearest, ties to even
  (`uint_to_double`); the conversion `double` -> unsigned integer is defined by C only when
  the value fits the target type (`double_to_uint`).
-/

namespace RubyProf

/-! ## Build configuration -/

/-- Width of a platform integer type (`size_t`, `unsigned long`). -/
inductive Width where
  | w32
  | w64
deriving DecidableEq, Repr

/-- Number of bits of a width. -/
def Width.bits : Width → Nat
  | .w32 => 32
  | .w64 => 64

/-- Number of bits of `unsigned LONG_LONG`. -/
def ULLONG_BITS : Nat := 64

/-- The preprocessor symbols and platform types `rp_measure_allocations.c` depends on. -/
structure Build where
  /-- whether `HAVE_RB_OS_ALLOCATED_OBJECTS` is defined -/
  HAVE_RB_OS_ALLOCATED_OBJECTS : Bool
  /-- whether `HAVE_RB_GC_STAT` is defined -/
  HAVE_RB_GC_STAT : Bool
  /-- value of `RUBY_PROF_RUBY_VERSION` -/
  RUBY_PROF_RUBY_VERSION : Nat
  /-- whether `HAVE_LONG_LONG` is defined -/
  HAVE_LONG_LONG : Bool
  /-- width of `size_t`, the return type of `rb_gc_stat` -/
  size_t : Width
  /-- width of `unsigned long`, the argument type of `ULONG2NUM` -/
  unsigned_long : Width
deriving DecidableEq, Repr

/-! ## The host runtime -/

/-- What the host runtime answers when called. A `VALUE` and an `ID` are natural numbers. -/
structure Host where
  /-- answer of `rb_os_allocated_objects()` -/
  rb_os_allocated_objects : Nat
  /-- answer of `rb_gc_stat(key)` -/
  rb_gc_stat : Nat → Nat
  /-- answer of `rb_intern_const(name)` -/
  rb_intern_const : String → Nat
  /-- the `ID2SYM` conversion from an `ID` to a symbol `VALUE` -/
  ID2SYM : Nat → Nat

/-- A call made to the host runtime. -/
inductive HostCall where
  | rb_os_allocated_objects
  | rb_intern_const (name : String)
  | rb_gc_stat (key : Nat)
deriving DecidableEq, Repr

/-- Result of running a C function of this file: the returned value, the value of the
static `total_alloc_symbol` afterwards, and the host calls made, in order. -/
structure Outcome (α : Type) where
  ret : α
  total_alloc_symbol : Nat
  calls : List HostCall
deriving DecidableEq, Repr

/-! ## Conversions between unsigned integers and `double` -/

/-- Round `n` to a multiple of `2 ^ e`, to nearest, ties to the even multiple. -/
def roundAt (e n : Nat) : Nat :=
  let q := n / 2 ^ e
  let r := n % 2 ^ e
  if 2 * r < 2 ^ e then q * 2 ^ e
  else if 2 ^ e < 2 * r then (q + 1) * 2 ^ e
  else if q % 2 = 0 then q * 2 ^ e
  else (q + 1) * 2 ^ e

/-- Number of low-order bits of `n` that do not fit a 53-bit significand: the least `e`
(at most `fuel`) with `n / 2 ^ e < 2 ^ 53`. -/
def excessBits : Nat → Nat → Nat
  | 0, _ => 0
  | fuel + 1, n => if n < 2 ^ 53 then 0 else excessBits fuel (n / 2) + 1

/-- Conversion of an unsigned integer to `double`: the value of the nearest binary64 number,
ties to even. The fuel covers every binade of finite binary64 numbers. -/
def uint_to_double (n : Nat) : Nat :=
  roundAt (excessBits 971 n) n

/-- Conversion of a `double` with non-negative integer value `d` to an unsigned integer type
of `w` bits. C defines the result only when `d` is representable in the type; `none` marks a
conversion outside that range. The source has no check and no error path there: the compiled
code still produces some integer of the type, which one depending on the platform
(see `platform_integer`). -/
def double_to_uint (w d : Nat) : Option Nat :=
  if d < 2 ^ w then some d else none

/-- The integer a conversion hands back on a platform where a conversion that C leaves
undefined yields `oor` (on x86-64 the conversion of `2 ^ 64` yields 0). -/
def platform_integer (oor : Nat) (r : Option Nat) : Nat :=
  r.getD oor

/-! ## `rp_measure_allocations.c` -/

/-- The macro `TOTAL_ALLOCATED_OBJECTS_STRING`, as a function of `RUBY_PROF_RUBY_VERSION`. -/
def TOTAL_ALLOCATED_OBJECTS_STRING (version : Nat) : String :=
  if 20200 ≤ version then "total_allocated_objects" else "total_allocated_object"

/-- The macro `MEASURE_ALLOCATIONS_ENABLED` (`Qtrue` is `true`, `Qfalse` is `false`),
defined by the branch of `measure_allocations` that the preprocessor keeps. -/
def MEASURE_ALLOCATIONS_ENABLED (b : Build) : Bool :=
  if b.HAVE_RB_OS_ALLOCATED_OBJECTS then true
  else if b.HAVE_RB_GC_STAT && decide (20100 ≤ b.RUBY_PROF_RUBY_VERSION) then true
  else false

/-- The C function `measure_allocations`, returning a `double`. -/
def measure_allocations (b : Build) (h : Host) (total_alloc_symbol : Nat) : Outcome Nat :=
  if b.HAVE_RB_OS_ALLOCATED_OBJECTS then
    { ret := uint_to_double (h.rb_os_allocated_objects % 2 ^ ULLONG_BITS)
      total_alloc_symbol := total_alloc_symbol
      calls := [.rb_os_allocated_objects] }
  else if b.HAVE_RB_GC_STAT && decide (20100 ≤ b.RUBY_PROF_RUBY_VERSION) then
    if total_alloc_symbol = 0 then
      let name := TOTAL_ALLOCATED_OBJECTS_STRING b.RUBY_PROF_RUBY_VERSION
      let sym := h.ID2SYM (h.rb_intern_const name)
      { ret := uint_to_double (h.rb_gc_stat sym % 2 ^ b.size_t.bits)
        total_alloc_symbol := sym
        calls := [.rb_intern_const name, .rb_gc_stat sym] }
    else
      { ret := uint_to_double (h.rb_gc_stat total_alloc_symbol % 2 ^ b.size_t.bits)
        total_alloc_symbol := total_alloc_symbol
        calls := [.rb_gc_stat total_alloc_symbol] }
  else
    { ret := 0
      total_alloc_symbol := total_alloc_symbol
      calls := [] }

/-- Number of bits of the unsigned type the `double` is converted to in
`prof_measure_allocations`: `unsigned LONG_LONG` for `ULL2NUM`, `unsigned long` for
`ULONG2NUM`. -/
def num_bits (b : Build) : Nat :=
  if b.HAVE_LONG_LONG then ULLONG_BITS else b.unsigned_long.bits

/-- The C function `prof_measure_allocations`, the body of `Allocations.measure`. The Ruby
Integer returned is represented by its value; `none` stands for a conversion whose result C
leaves undefined. -/
def prof_measure_allocations (b : Build) (h : Host) (total_alloc_symbol : Nat) :
    Outcome (Option Nat) :=
  let m := measure_allocations b h total_alloc_symbol
  { ret := double_to_uint (num_bits b) m.ret
    total_alloc_symbol := m.total_alloc_symbol
    calls := m.calls }

/-- A Ruby constant value defined by this file. -/
inductive RConst where
  | int (i : Int)
  | bool (v : Bool)
deriving DecidableEq, Repr

/-- The constants `rp_init_measure_allocations` defines under `RubyProf`, in order. The enum
value `MEASURE_ALLOCATIONS` comes from a header and is a parameter. -/
def rp_init_measure_allocations (b : Build) (MEASURE_ALLOCATIONS : Int) :
    List (String × RConst) :=
  [("ALLOCATIONS", .int MEASURE_ALLOCATIONS),
   ("ALLOCATIONS_ENABLED", .bool (MEASURE_ALLOCATIONS_ENABLED b))]

/-- Successive calls of `measure_allocations`, one per host snapshot, threading the static
`total_alloc_symbol`. -/
def measure_allocations_seq (b : Build) : Nat → List Host → List (Outcome Nat)
  | _, [] => []
  | sym, h :: hs =>
    let r := measure_allocations b h sym
    r :: measure_allocations_seq b r.total_alloc_symbol hs

/-- Successive calls of `Allocations.measure`, one per host snapshot, threading the static
`total_alloc_symbol`. -/
def prof_measure_allocations_seq (b : Build) : Nat → List Host → List (Outcome (Option Nat))
  | _, [] => []
  | sym, h :: hs =>
    let r := prof_measure_allocations b h sym
    r :: prof_measure_allocations_seq b r.total_alloc_symbol hs

/-- The value of the constant `RubyProf::ALLOCATIONS_ENABLED` after initialisation. -/
def ALLOCATIONS_ENABLED (b : Build) (MEASURE_ALLOCATIONS : Int) : Option RConst :=
  (rp_init_measure_allocations b MEASURE_ALLOCATIONS).lookup "ALLOCATIONS_ENABLED"

/-! ## Vocabulary of the statements -/

/-- Number of bits of the return type of the counter facility a build selects:
`unsigned LONG_LONG` for `rb_os_allocated_objects`, `size_t` for `rb_gc_stat`. -/
def counter_bits (b : Build) : Nat :=
  if b.HAVE_RB_OS_ALLOCATED_OBJECTS then ULLONG_BITS else b.size_t.bits

/-- The symbol `VALUE` the host gives the name of the total-allocated-objects statistic. -/
def Host.total_alloc_key (h : Host) (b : Build) : Nat :=
  h.ID2SYM (h.rb_intern_const (TOTAL_ALLOCATED_OBJECTS_STRING b.RUBY_PROF_RUBY_VERSION))

/-- The host's allocation counter holds `c`, as seen through the facility of the build: the
direct query answers `c`, or, without it, the statistics query answers `c` for the
total-allocated-objects symbol. -/
def Host.counts (h : Host) (b : Build) (c : Nat) : Prop :=
  if b.HAVE_RB_OS_ALLOCATED_OBJECTS then h.rb_os_allocated_objects = c
  else h.rb_gc_stat (h.total_alloc_key b) = c

/-- The static `total_alloc_symbol` holds a value the program can have left in it: its initial
0, or the total-allocated-objects symbol. -/
def cached (b : Build) (h : Host) (sym : Nat) : Prop :=
  sym = 0 ∨ sym = h.total_alloc_key b

/-- Whether a host call reads the allocation counter. -/
def HostCall.isCounterRead : HostCall → Bool
  | .rb_os_allocated_objects => true
  | .rb_gc_stat _ => true
  | .rb_intern_const _ => false

/-- Whether a host call is a name lookup. -/
def HostCall.isLookup : HostCall → Bool
  | .rb_intern_const _ => true
  | _ => false

/-- All host calls of a sequence of runs, in order. -/
def trace {α : Type} : List (Outcome α) → List HostCall
  | [] => []
  | r :: rs => r.calls ++ trace rs

/-- A host whose allocation counter reads `c` through either facility: the `ID` of a name is
its length, a symbol is the `ID` shifted by eight bits and tagged, and the statistics query
answers `c` for the symbols of the two names of the counter and 0 for any other key. -/
def Host.ofCounter (c : Nat) : Host :=
  { rb_os_allocated_objects := c
    rb_gc_stat := fun key => if key = 5900 ∨ key = 5644 then c else 0
    rb_intern_const := fun s => s.length
    ID2SYM := fun i => 256 * i + 12 }

/-- A 64-bit build against a runtime with the direct query. -/
def build_direct : Build :=
  { HAVE_RB_OS_ALLOCATED_OBJECTS := true, HAVE_RB_GC_STAT := false
    RUBY_PROF_RUBY_VERSION := 10903, HAVE_LONG_LONG := true
    size_t := .w64, unsigned_long := .w64 }

/-- A 64-bit build against Ruby 2.2 with the statistics query. -/
def build_gc_stat : Build :=
  { HAVE_RB_OS_ALLOCATED_OBJECTS := false, HAVE_RB_GC_STAT := true
    RUBY_PROF_RUBY_VERSION := 20200, HAVE_LONG_LONG := true
    size_t := .w64, unsigned_long := .w64 }

/-- A 64-bit build with `HAVE_RB_GC_STAT` defined and a version number below 2.1. -/
def build_gc_stat_old : Build :=
  { HAVE_RB_OS_ALLOCATED_OBJECTS := false, HAVE_RB_GC_STAT := true
    RUBY_PROF_RUBY_VERSION := 20000, HAVE_LONG_LONG := true
    size_t := .w64, unsigned_long := .w64 }

/-- A 32-bit build without `long long` against a runtime with neither facility. -/
def build_none : Build :=
  { HAVE_RB_OS_ALLOCATED_OBJECTS := false, HAVE_RB_GC_STAT := false
    RUBY_PROF_RUBY_VERSION := 10807, HAVE_LONG_LONG := false
    size_t := .w32, unsigned_long := .w32 }

/-! ## Arithmetic of the conversion to `double` -/

theorem roundAt_zero (n : Nat) : roundAt 0 n = n := by
  unfold roundAt
  simp only [Nat.pow_zero, Nat.mod_one, Nat.div_one, Nat.mul_one]
  simp

theorem roundAt_ge (e n : Nat) : n / 2 ^ e * 2 ^ e ≤ roundAt e n := by
  have h : n / 2 ^ e * 2 ^ e ≤ (n / 2 ^ e + 1) * 2 ^ e :=
    Nat.mul_le_mul_right _ (Nat.le_succ _)
  unfold roundAt
  simp only
  split_ifs <;> first | exact le_refl _ | exact h

theorem roundAt_le (e n : Nat) : roundAt e n ≤ (n / 2 ^ e + 1) * 2 ^ e := by
  have h : n / 2 ^ e * 2 ^ e ≤ (n / 2 ^ e + 1) * 2 ^ e :=
    Nat.mul_le_mul_right _ (Nat.le_succ _)
  unfold roundAt
  simp only
  split_ifs <;> first | exact le_refl _ | exact h

/-- Rounding moves a number by at most half of `2 ^ e`. -/
theorem roundAt_error (e n : Nat) :
    2 * roundAt e n ≤ 2 * n + 2 ^ e ∧ 2 * n ≤ 2 * roundAt e n + 2 ^ e := by
  have hp : 0 < 2 ^ e := Nat.two_pow_pos _
  have hdm : 2 ^ e * (n / 2 ^ e) + n % 2 ^ e = n := Nat.div_add_mod n (2 ^ e)
  have hr : n % 2 ^ e < 2 ^ e := Nat.mod_lt _ hp
  have hs : (n / 2 ^ e + 1) * 2 ^ e = n / 2 ^ e * 2 ^ e + 2 ^ e := Nat.succ_mul _ _
  have hc : 2 ^ e * (n / 2 ^ e) = n / 2 ^ e * 2 ^ e := Nat.mul_comm _ _
  unfold roundAt
  simp only
  generalize 2 ^ e = p at *
  generalize n / p = q at *
  generalize n % p = r at *
  generalize q * p = m at *
  split_ifs <;> omega

theorem roundAt_mono (e : Nat) {a b : Nat} (hab : a ≤ b) : roundAt e a ≤ roundAt e b := by
  have hp : 0 < 2 ^ e := Nat.two_pow_pos _
  have hq : a / 2 ^ e ≤ b / 2 ^ e := Nat.div_le_div_right hab
  rcases Nat.lt_or_ge (a / 2 ^ e) (b / 2 ^ e) with hlt | hge
  · calc roundAt e a ≤ (a / 2 ^ e + 1) * 2 ^ e := roundAt_le e a
      _ ≤ b / 2 ^ e * 2 ^ e := Nat.mul_le_mul_right _ hlt
      _ ≤ roundAt e b := roundAt_ge e b
  · have hqe : a / 2 ^ e = b / 2 ^ e := Nat.le_antisymm hq hge
    have hda : 2 ^ e * (a / 2 ^ e) + a % 2 ^ e = a := Nat.div_add_mod a (2 ^ e)
    have hdb : 2 ^ e * (b / 2 ^ e) + b % 2 ^ e = b := Nat.div_add_mod b (2 ^ e)
    have hs : (b / 2 ^ e + 1) * 2 ^ e = b / 2 ^ e * 2 ^ e + 2 ^ e := Nat.succ_mul _ _
    unfold roundAt
    simp only
    rw [hqe] at hda ⊢
    generalize 2 ^ e = p at *
    generalize b / p = q at *
    generalize a % p = ra at *
    generalize b % p = rb at *
    generalize p * q = m at *
    generalize q * p = m2 at *
    split_ifs <;> omega

theorem excessBits_le (fuel n : Nat) : excessBits fuel n ≤ fuel := by
  induction fuel generalizing n with
  | zero => simp [excessBits]
  | succ k ih =>
    unfold excessBits
    split_ifs
    · exact Nat.zero_le _
    · exact Nat.succ_le_succ (ih _)

theorem excessBits_of_lt (fuel : Nat) {n : Nat} (h : n < 2 ^ 53) : excessBits fuel n = 0 := by
  cases fuel with
  | zero => rfl
  | succ k =>
    unfold excessBits
    rw [if_pos h]

theorem excessBits_upper (fuel : Nat) {n : Nat} (h : n < 2 ^ (53 + fuel)) :
    n < 2 ^ (53 + excessBits fuel n) := by
  induction fuel generalizing n with
  | zero => simpa [excessBits] using h
  | succ k ih =>
    unfold excessBits
    split_ifs with hn
    · simpa using hn
    · have h2 : n / 2 < 2 ^ (53 + k) := by
        rw [Nat.div_lt_iff_lt_mul (by decide)]
        have : 2 ^ (53 + (k + 1)) = 2 ^ (53 + k) * 2 := by rw [← Nat.add_assoc, Nat.pow_succ]
        omega
      have h3 := ih h2
      have : 2 ^ (53 + (excessBits k (n / 2) + 1)) = 2 ^ (53 + excessBits k (n / 2)) * 2 := by
        rw [← Nat.add_assoc, Nat.pow_succ]
      omega

theorem excessBits_lower (fuel n : Nat) :
    excessBits fuel n = 0 ∨ 2 ^ (52 + excessBits fuel n) ≤ n := by
  induction fuel generalizing n with
  | zero => left; rfl
  | succ k ih =>
    unfold excessBits
    split_ifs with hn
    · left; rfl
    · right
      have e1 : 2 ^ (52 + (excessBits k (n / 2) + 1)) = 2 ^ (52 + excessBits k (n / 2)) * 2 := by
        rw [← Nat.add_assoc, Nat.pow_succ]
      rcases ih (n / 2) with h0 | h1
      · rw [h0]
        norm_num at hn ⊢
        omega
      · omega

theorem excessBits_mono (fuel : Nat) {a b : Nat} (hab : a ≤ b) :
    excessBits fuel a ≤ excessBits fuel b := by
  induction fuel generalizing a b with
  | zero => simp [excessBits]
  | succ k ih =>
    unfold excessBits
    split_ifs with ha hb hb
    · exact le_refl _
    · exact Nat.zero_le _
    · omega
    · exact Nat.succ_le_succ (ih (Nat.div_le_div_right hab))

/-- Below `2 ^ 64` at most eleven low-order bits are rounded away. -/
theorem excessBits_le_eleven {n : Nat} (h : n < 2 ^ 64) : excessBits 971 n ≤ 11 := by
  rcases excessBits_lower 971 n with h0 | h1
  · omega
  · have h2 : 2 ^ (52 + excessBits 971 n) < 2 ^ 64 := lt_of_le_of_lt h1 h
    have h3 := (Nat.pow_lt_pow_iff_right (by decide : 1 < 2)).mp h2
    omega

/-- Integers up to `2 ^ 53` are exactly representable. -/
theorem uint_to_double_exact {n : Nat} (h : n ≤ 2 ^ 53) : uint_to_double n = n := by
  rcases Nat.lt_or_ge n (2 ^ 53) with hlt | hge
  · unfold uint_to_double
    rw [excessBits_of_lt 971 hlt, roundAt_zero]
  · have : n = 2 ^ 53 := Nat.le_antisymm h hge
    subst this
    decide

theorem two_pow_64_le (k : Nat) (h : 64 ≤ k) : 2 ^ 64 ≤ 2 ^ k :=
  Nat.pow_le_pow_right (Nat.succ_pos 1) h

/-- Values of a 64-bit unsigned type lie in the range of finite binary64 numbers. -/
theorem lt_finite {n : Nat} (h : n < 2 ^ 64) : n < 2 ^ (53 + 971) :=
  lt_of_lt_of_le h (two_pow_64_le _ (by decide))

/-- The conversion to `double` is monotone. -/
theorem uint_to_double_mono {a b : Nat} (hab : a ≤ b) (hb : b < 2 ^ 64) :
    uint_to_double a ≤ uint_to_double b := by
  unfold uint_to_double
  have ha : a < 2 ^ (53 + 971) := lt_finite (lt_of_le_of_lt hab hb)
  rcases Nat.lt_or_ge (excessBits 971 a) (excessBits 971 b) with hlt | hge
  · have hua := excessBits_upper 971 ha
    have hlb : 2 ^ (52 + excessBits 971 b) ≤ b := by
      rcases excessBits_lower 971 b with h0 | h1
      · omega
      · exact h1
    generalize excessBits 971 a = ea at *
    generalize excessBits 971 b = eb at *
    have hqa : a / 2 ^ ea + 1 ≤ 2 ^ 53 := by
      have : a / 2 ^ ea < 2 ^ 53 := by
        rw [Nat.div_lt_iff_lt_mul (Nat.two_pow_pos _)]
        rwa [← Nat.pow_add]
      omega
    have hqb : 2 ^ 52 ≤ b / 2 ^ eb := by
      rw [Nat.le_div_iff_mul_le (Nat.two_pow_pos _), ← Nat.pow_add]
      exact hlb
    calc roundAt ea a ≤ (a / 2 ^ ea + 1) * 2 ^ ea := roundAt_le ea a
      _ ≤ 2 ^ 53 * 2 ^ ea := Nat.mul_le_mul_right _ hqa
      _ = 2 ^ (53 + ea) := (Nat.pow_add 2 53 ea).symm
      _ ≤ 2 ^ (52 + eb) := Nat.pow_le_pow_right (by decide) (by omega)
      _ = 2 ^ 52 * 2 ^ eb := Nat.pow_add 2 52 eb
      _ ≤ b / 2 ^ eb * 2 ^ eb := Nat.mul_le_mul_right _ hqb
      _ ≤ roundAt eb b := roundAt_ge eb b
  · have he : excessBits 971 a = excessBits 971 b :=
      Nat.le_antisymm (excessBits_mono 971 hab) hge
    rw [he]
    exact roundAt_mono _ hab

/-- Below `2 ^ 64 - 2 ^ 10` the nearest `double` is below `2 ^ 64`. -/
theorem uint_to_double_lt {c : Nat} (h : c < 2 ^ 64 - 2 ^ 10) : uint_to_double c < 2 ^ 64 := by
  have h1 : c ≤ 2 ^ 64 - 1025 := by omega
  have h2 : 2 ^ 64 - 1025 < 2 ^ 64 := by decide
  have h3 := uint_to_double_mono h1 h2
  have h4 : uint_to_double (2 ^ 64 - 1025) = 2 ^ 64 - 2048 := by decide
  omega

/-- From `2 ^ 64 - 2 ^ 10` on, the nearest `double` is `2 ^ 64`. -/
theorem uint_to_double_top {c : Nat} (h1 : 2 ^ 64 - 2 ^ 10 ≤ c) (h2 : c < 2 ^ 64) :
    uint_to_double c = 2 ^ 64 := by
  have e1 : uint_to_double (2 ^ 64 - 2 ^ 10) = 2 ^ 64 := by decide
  have e2 : uint_to_double (2 ^ 64 - 1) = 2 ^ 64 := by decide
  have m1 := uint_to_double_mono h1 h2
  have m2 := uint_to_double_mono (by omega : c ≤ 2 ^ 64 - 1) (by decide)
  omega

/-- Below `2 ^ 64` the nearest `double` is at most `2 ^ 10` away. -/
theorem uint_to_double_error {c : Nat} (h : c < 2 ^ 64) :
    uint_to_double c ≤ c + 2 ^ 10 ∧ c ≤ uint_to_double c + 2 ^ 10 := by
  have he := excessBits_le_eleven h
  have hr := roundAt_error (excessBits 971 c) c
  have hp : 2 ^ excessBits 971 c ≤ 2 ^ 11 := Nat.pow_le_pow_right (by decide) he
  unfold uint_to_double
  generalize roundAt (excessBits 971 c) c = v at *
  generalize 2 ^ excessBits 971 c = p at *
  omega

/-! ## Facts about the embedding shared by the theorems below -/

theorem counter_bits_le (b : Build) : 2 ^ counter_bits b ≤ 2 ^ 64 := by
  unfold counter_bits ULLONG_BITS
  split_ifs
  · exact le_refl _
  · cases b.size_t <;> decide

theorem Host.ofCounter_counts (b : Build) (c : Nat) : (Host.ofCounter c).counts b c := by
  unfold Host.counts Host.total_alloc_key TOTAL_ALLOCATED_OBJECTS_STRING
  split_ifs
  · rfl
  · have hk : (Host.ofCounter c).ID2SYM
        ((Host.ofCounter c).rb_intern_const "total_allocated_objects") = 5900 := rfl
    rw [hk]
    show (if 5900 = 5900 ∨ 5900 = 5644 then c else 0) = c
    exact if_pos (Or.inl rfl)
  · have hk : (Host.ofCounter c).ID2SYM
        ((Host.ofCounter c).rb_intern_const "total_allocated_object") = 5644 := rfl
    rw [hk]
    show (if 5644 = 5900 ∨ 5644 = 5644 then c else 0) = c
    exact if_pos (Or.inr rfl)

/-- In a supported build `measure_allocations` returns the `double` nearest to the counter. -/
theorem measure_allocations_ret {b : Build} {h : Host} {sym c : Nat}
    (hen : MEASURE_ALLOCATIONS_ENABLED b = true) (hs : cached b h sym) (hc : h.counts b c)
    (hr : c < 2 ^ counter_bits b) :
    (measure_allocations b h sym).ret = uint_to_double c := by
  unfold MEASURE_ALLOCATIONS_ENABLED at hen
  unfold counter_bits at hr
  unfold Host.counts at hc
  unfold measure_allocations
  split_ifs at hen hr hc ⊢ with h1 h2 h3
  · simp only [hc, Nat.mod_eq_of_lt hr]
  · have hk : h.ID2SYM (h.rb_intern_const
        (TOTAL_ALLOCATED_OBJECTS_STRING b.RUBY_PROF_RUBY_VERSION)) = h.total_alloc_key b := rfl
    simp only [hk, hc, Nat.mod_eq_of_lt hr]
  · rcases hs with h0 | hk
    · exact absurd h0 h3
    · simp only [hk, hc, Nat.mod_eq_of_lt hr]

/-- In an unsupported build `measure_allocations` returns zero and calls nothing. -/
theorem measure_allocations_disabled {b : Build} (h : Host) (sym : Nat)
    (hen : MEASURE_ALLOCATIONS_ENABLED b = false) :
    measure_allocations b h sym = { ret := 0, total_alloc_symbol := sym, calls := [] } := by
  unfold MEASURE_ALLOCATIONS_ENABLED at hen
  unfold measure_allocations
  split_ifs at hen ⊢
  rfl

/-- With the direct query, `measure_allocations` is one call of it. -/
theorem measure_allocations_direct {b : Build} (h : Host) (sym : Nat)
    (hd : b.HAVE_RB_OS_ALLOCATED_OBJECTS = true) :
    measure_allocations b h sym =
      { ret := uint_to_double (h.rb_os_allocated_objects % 2 ^ ULLONG_BITS)
        total_alloc_symbol := sym
        calls := [HostCall.rb_os_allocated_objects] } := by
  unfold measure_allocations
  rw [if_pos hd]

/-- In the statistics build with nothing cached, `measure_allocations` looks the name up,
caches the symbol and queries under it. -/
theorem measure_allocations_gc_stat_first {b : Build} (h : Host)
    (hd : b.HAVE_RB_OS_ALLOCATED_OBJECTS = false) (hg : b.HAVE_RB_GC_STAT = true)
    (hv : 20100 ≤ b.RUBY_PROF_RUBY_VERSION) :
    measure_allocations b h 0 =
      { ret := uint_to_double
          (h.rb_gc_stat (h.ID2SYM (h.rb_intern_const
            (TOTAL_ALLOCATED_OBJECTS_STRING b.RUBY_PROF_RUBY_VERSION))) % 2 ^ b.size_t.bits)
        total_alloc_symbol := h.ID2SYM (h.rb_intern_const
            (TOTAL_ALLOCATED_OBJECTS_STRING b.RUBY_PROF_RUBY_VERSION))
        calls := [HostCall.rb_intern_const
            (TOTAL_ALLOCATED_OBJECTS_STRING b.RUBY_PROF_RUBY_VERSION),
          HostCall.rb_gc_stat (h.ID2SYM (h.rb_intern_const
            (TOTAL_ALLOCATED_OBJECTS_STRING b.RUBY_PROF_RUBY_VERSION)))] } := by
  unfold measure_allocations
  simp [hd, hg, hv]

/-- In the statistics build with a cached symbol, `measure_allocations` queries under it. -/
theorem measure_allocations_gc_stat_cached {b : Build} (h : Host) {sym : Nat}
    (hd : b.HAVE_RB_OS_ALLOCATED_OBJECTS = false) (hg : b.HAVE_RB_GC_STAT = true)
    (hv : 20100 ≤ b.RUBY_PROF_RUBY_VERSION) (hs : sym ≠ 0) :
    measure_allocations b h sym =
      { ret := uint_to_double (h.rb_gc_stat sym % 2 ^ b.size_t.bits)
        total_alloc_symbol := sym
        calls := [HostCall.rb_gc_stat sym] } := by
  unfold measure_allocations
  simp [hd, hg, hv, hs]

/-- In the statistics build, once a non-zero symbol is cached every later call queries under
it and leaves it cached. -/
theorem measure_allocations_seq_cached {b : Build} (hs : List Host) {sym : Nat}
    (hd : b.HAVE_RB_OS_ALLOCATED_OBJECTS = false) (hg : b.HAVE_RB_GC_STAT = true)
    (hv : 20100 ≤ b.RUBY_PROF_RUBY_VERSION) (h0 : sym ≠ 0) :
    measure_allocations_seq b sym hs = hs.map (fun h =>
      { ret := uint_to_double (h.rb_gc_stat sym % 2 ^ b.size_t.bits)
        total_alloc_symbol := sym
        calls := [HostCall.rb_gc_stat sym] }) := by
  induction hs with
  | nil => rfl
  | cons h t ih =>
    simp only [measure_allocations_seq, measure_allocations_gc_stat_cached h hd hg hv h0, ih,
      List.map_cons]

theorem trace_map_no_lookup (hs : List Host) (f : Host → Nat) (sym : Nat) :
    (trace (hs.map (fun h => Outcome.mk (f h) sym [HostCall.rb_gc_stat sym]))).filter
      HostCall.isLookup = [] := by
  induction hs with
  | nil => rfl
  | cons h t ih =>
    simp only [List.map_cons, trace, List.filter_append, ih, List.append_nil]
    rfl

theorem zero_lt_num_bits (b : Build) : 0 < 2 ^ num_bits b :=
  Nat.two_pow_pos _

/-- A counter value that fits the target type and lies below `2 ^ 64 - 2 ^ 10` has a nearest
`double` that fits the target type. -/
theorem uint_to_double_fits {b : Build} {c : Nat} (hf : c < 2 ^ num_bits b)
    (ht : c < 2 ^ 64 - 2 ^ 10) : uint_to_double c < 2 ^ num_bits b := by
  unfold num_bits ULLONG_BITS at *
  split_ifs at hf ⊢
  · exact uint_to_double_lt ht
  · cases hu : b.unsigned_long
    · rw [hu] at hf
      have h32 : c < 2 ^ 32 := hf
      have : c ≤ 2 ^ 53 := by omega
      rw [uint_to_double_exact this]
      exact h32
    · exact uint_to_double_lt ht

theorem double_to_uint_of_lt {w d : Nat} (h : d < 2 ^ w) : double_to_uint w d = some d := by
  unfold double_to_uint
  rw [if_pos h]

/-- Up to `2 ^ 53` the value passes through `double` unchanged. -/
theorem round_trip_exact_small (b : Build) (h : Host) (sym c : Nat)
    (hen : MEASURE_ALLOCATIONS_ENABLED b = true) (hs : cached b h sym) (hc : h.counts b c)
    (hr : c < 2 ^ counter_bits b) (hf : c < 2 ^ num_bits b) (h53 : c ≤ 2 ^ 53) :
    (prof_measure_allocations b h sym).ret = some c := by
  unfold prof_measure_allocations
  simp only
  rw [measure_allocations_ret hen hs hc hr, uint_to_double_exact h53]
  exact double_to_uint_of_lt hf

/-! ## The claims -/

/-- C1, as amended: in every build where a counter facility is selected, for every host
counter value `c` of the facility's return type with `c ≤ 2 ^ 53` that the unsigned type of
the final conversion can hold, `Allocations.measure` returns exactly `c`. -/
theorem measure_exact_up_to_2_pow_53 (b : Build) (h : Host) (sym c : Nat)
    (hen : MEASURE_ALLOCATIONS_ENABLED b = true) (hs : cached b h sym) (hc : h.counts b c)
    (hr : c < 2 ^ counter_bits b) (hf : c < 2 ^ num_bits b) (h53 : c ≤ 2 ^ 53) :
    (prof_measure_allocations b h sym).ret = some c := by
  have hd : (measure_allocations b h sym).ret = c := by
    rw [measure_allocations_ret hen hs hc hr]
    exact uint_to_double_exact h53
  unfold prof_measure_allocations
  simp only
  rw [hd]
  exact double_to_uint_of_lt hf

theorem measure_exact_up_to_2_pow_53_witness :
    (prof_measure_allocations build_gc_stat (Host.ofCounter (2 ^ 53)) 0).ret = some (2 ^ 53) :=
  measure_exact_up_to_2_pow_53 build_gc_stat (Host.ofCounter (2 ^ 53)) 0 (2 ^ 53)
    (by decide) (Or.inl rfl) (Host.ofCounter_counts _ _) (by decide) (by decide) (by decide)

/-- C1, refuted as stated: with the direct query and the counter at `2 ^ 53 + 1`, a value of
`unsigned LONG_LONG`, `Allocations.measure` returns `2 ^ 53`. -/
theorem measure_not_exact_above_2_pow_53 :
    MEASURE_ALLOCATIONS_ENABLED build_direct = true ∧
    (Host.ofCounter (2 ^ 53 + 1)).counts build_direct (2 ^ 53 + 1) ∧
    2 ^ 53 + 1 < 2 ^ counter_bits build_direct ∧
    (prof_measure_allocations build_direct (Host.ofCounter (2 ^ 53 + 1)) 0).ret
      = some (2 ^ 53) ∧
    (prof_measure_allocations build_direct (Host.ofCounter (2 ^ 53 + 1)) 0).ret
      ≠ some (2 ^ 53 + 1) :=
  ⟨by decide, Host.ofCounter_counts _ _, by decide, by decide, by decide⟩

/-- C7, as amended: in every build, for every host counter value `c` of the facility's return
type that the unsigned type of the final conversion can hold and that is below
`2 ^ 64 - 2 ^ 10`, the `double` returned by `measure_allocations` is within the range of that
unsigned type and `Allocations.measure` returns an integer. -/
theorem measure_defined_below_top (b : Build) (h : Host) (sym c : Nat)
    (hs : cached b h sym) (hc : h.counts b c) (hr : c < 2 ^ counter_bits b)
    (hf : c < 2 ^ num_bits b) (ht : c < 2 ^ 64 - 2 ^ 10) :
    (measure_allocations b h sym).ret < 2 ^ num_bits b ∧
    ∃ v, (prof_measure_allocations b h sym).ret = some v := by
  have hlt : (measure_allocations b h sym).ret < 2 ^ num_bits b := by
    cases hen : MEASURE_ALLOCATIONS_ENABLED b
    · rw [measure_allocations_disabled h sym hen]
      exact zero_lt_num_bits b
    · rw [measure_allocations_ret hen hs hc hr]
      exact uint_to_double_fits hf ht
  exact ⟨hlt, _, double_to_uint_of_lt hlt⟩

theorem measure_defined_below_top_witness :
    (measure_allocations build_direct (Host.ofCounter (2 ^ 64 - 1025)) 0).ret
      < 2 ^ num_bits build_direct ∧
    ∃ v, (prof_measure_allocations build_direct (Host.ofCounter (2 ^ 64 - 1025)) 0).ret
      = some v :=
  measure_defined_below_top build_direct (Host.ofCounter (2 ^ 64 - 1025)) 0 (2 ^ 64 - 1025)
    (Or.inl rfl) (Host.ofCounter_counts _ _) (by decide) (by decide) (by decide)

/-- C7, refuted as stated: with the direct query and the counter at `2 ^ 64 - 1`, the
`double` returned by `measure_allocations` is `2 ^ 64`, outside the range of
`unsigned LONG_LONG`, and the conversion in `Allocations.measure` has no defined result. -/
theorem measure_undefined_at_top :
    (Host.ofCounter (2 ^ 64 - 1)).counts build_direct (2 ^ 64 - 1) ∧
    2 ^ 64 - 1 < 2 ^ counter_bits build_direct ∧
    (measure_allocations build_direct (Host.ofCounter (2 ^ 64 - 1)) 0).ret = 2 ^ 64 ∧
    ¬ (measure_allocations build_direct (Host.ofCounter (2 ^ 64 - 1)) 0).ret
        < 2 ^ num_bits build_direct ∧
    (prof_measure_allocations build_direct (Host.ofCounter (2 ^ 64 - 1)) 0).ret = none :=
  ⟨Host.ofCounter_counts _ _, by decide, by decide, by decide, by decide⟩

/-- C5, as amended: in every supported build, for host counter values `c1 ≤ c2` of the
facility's return type, with `c2` below `2 ^ 64 - 2 ^ 10` and within the unsigned type of the
final conversion, a `measure` call at `c1` and a later one at `c2` both return, and the first
value is at most the second. -/
theorem measure_monotone_below_top (b : Build) (h1 h2 : Host) (sym1 sym2 c1 c2 : Nat)
    (hen : MEASURE_ALLOCATIONS_ENABLED b = true)
    (hs1 : cached b h1 sym1) (hs2 : cached b h2 sym2)
    (hc1 : h1.counts b c1) (hc2 : h2.counts b c2) (hle : c1 ≤ c2)
    (hr : c2 < 2 ^ counter_bits b) (hf : c2 < 2 ^ num_bits b) (ht : c2 < 2 ^ 64 - 2 ^ 10) :
    ∃ v1 v2, (prof_measure_allocations b h1 sym1).ret = some v1 ∧
      (prof_measure_allocations b h2 sym2).ret = some v2 ∧ v1 ≤ v2 := by
  have hr1 : c1 < 2 ^ counter_bits b := lt_of_le_of_lt hle hr
  have hm : uint_to_double c1 ≤ uint_to_double c2 :=
    uint_to_double_mono hle (lt_of_lt_of_le hr (counter_bits_le b))
  have hlt2 : uint_to_double c2 < 2 ^ num_bits b := uint_to_double_fits hf ht
  refine ⟨uint_to_double c1, uint_to_double c2, ?_, ?_, hm⟩
  · unfold prof_measure_allocations
    simp only
    rw [measure_allocations_ret hen hs1 hc1 hr1]
    exact double_to_uint_of_lt (lt_of_le_of_lt hm hlt2)
  · unfold prof_measure_allocations
    simp only
    rw [measure_allocations_ret hen hs2 hc2 hr]
    exact double_to_uint_of_lt hlt2

theorem measure_monotone_below_top_witness :
    ∃ v1 v2,
      (prof_measure_allocations build_gc_stat (Host.ofCounter (2 ^ 53 + 1)) 0).ret = some v1 ∧
      (prof_measure_allocations build_gc_stat (Host.ofCounter (2 ^ 60 + 5)) 5900).ret
        = some v2 ∧ v1 ≤ v2 :=
  measure_monotone_below_top build_gc_stat (Host.ofCounter (2 ^ 53 + 1))
    (Host.ofCounter (2 ^ 60 + 5)) 0 5900 (2 ^ 53 + 1) (2 ^ 60 + 5)
    (by decide) (Or.inl rfl) (Or.inr (by decide)) (Host.ofCounter_counts _ _)
    (Host.ofCounter_counts _ _) (by decide) (by decide) (by decide) (by decide)

/-- C5, refuted as stated: with the direct query and counter values
`2 ^ 64 - 2 ^ 11 ≤ 2 ^ 64 - 2 ^ 10`, the first call returns `2 ^ 64 - 2 ^ 11`, while at the
later call the `double` is `2 ^ 64`, outside the range of `unsigned LONG_LONG`. C defines no
value for the later call, and on a platform where that conversion yields an integer below
`2 ^ 64 - 2 ^ 11` (x86-64 yields 0) the later call returns less than the earlier one. -/
theorem measure_not_monotone_at_top :
    MEASURE_ALLOCATIONS_ENABLED build_direct = true ∧
    (Host.ofCounter (2 ^ 64 - 2 ^ 11)).counts build_direct (2 ^ 64 - 2 ^ 11) ∧
    (Host.ofCounter (2 ^ 64 - 2 ^ 10)).counts build_direct (2 ^ 64 - 2 ^ 10) ∧
    2 ^ 64 - 2 ^ 11 ≤ 2 ^ 64 - 2 ^ 10 ∧ 2 ^ 64 - 2 ^ 10 < 2 ^ counter_bits build_direct ∧
    (prof_measure_allocations build_direct (Host.ofCounter (2 ^ 64 - 2 ^ 11)) 0).ret
      = some (2 ^ 64 - 2 ^ 11) ∧
    (measure_allocations build_direct (Host.ofCounter (2 ^ 64 - 2 ^ 10)) 0).ret = 2 ^ 64 ∧
    ¬ (measure_allocations build_direct (Host.ofCounter (2 ^ 64 - 2 ^ 10)) 0).ret
        < 2 ^ num_bits build_direct ∧
    (¬ ∃ v1 v2,
      (prof_measure_allocations build_direct (Host.ofCounter (2 ^ 64 - 2 ^ 11)) 0).ret
        = some v1 ∧
      (prof_measure_allocations build_direct (Host.ofCounter (2 ^ 64 - 2 ^ 10)) 0).ret
        = some v2 ∧ v1 ≤ v2) ∧
    (∀ oor, oor < 2 ^ 64 - 2 ^ 11 →
      ¬ platform_integer oor
          (prof_measure_allocations build_direct (Host.ofCounter (2 ^ 64 - 2 ^ 11)) 0).ret
        ≤ platform_integer oor
          (prof_measure_allocations build_direct (Host.ofCounter (2 ^ 64 - 2 ^ 10)) 0).ret) ∧
    platform_integer 0
        (prof_measure_allocations build_direct (Host.ofCounter (2 ^ 64 - 2 ^ 11)) 0).ret
      = 2 ^ 64 - 2 ^ 11 ∧
    platform_integer 0
        (prof_measure_allocations build_direct (Host.ofCounter (2 ^ 64 - 2 ^ 10)) 0).ret
      = 0 := by
  have e1 : (prof_measure_allocations build_direct (Host.ofCounter (2 ^ 64 - 2 ^ 11)) 0).ret
      = some (2 ^ 64 - 2 ^ 11) := by decide
  have e2 : (prof_measure_allocations build_direct (Host.ofCounter (2 ^ 64 - 2 ^ 10)) 0).ret
      = none := by decide
  refine ⟨by decide, Host.ofCounter_counts _ _, Host.ofCounter_counts _ _, by decide,
    by decide, e1, by decide, by decide, ?_, ?_, ?_, ?_⟩
  · rintro ⟨v1, v2, -, h2, -⟩
    rw [e2] at h2
    exact Option.noConfusion h2
  · intro oor hoor
    rw [e1, e2]
    exact Nat.not_le.mpr hoor
  · rw [e1]
    rfl
  · rw [e2]
    rfl

/-- C6, as amended: in every supported build, if `measure` is called when the counter is `c`,
at least `N` objects are allocated so that the counter becomes `c' ≥ c + N`, with `c'` of the
facility's return type, at most `2 ^ 53` and within the unsigned type of the final
conversion, and `measure` is called again, then both calls return and the second value is
at least the first plus `N`. -/
theorem measure_delta_up_to_2_pow_53 (b : Build) (h1 h2 : Host) (sym1 sym2 c c' N : Nat)
    (hen : MEASURE_ALLOCATIONS_ENABLED b = true)
    (hs1 : cached b h1 sym1) (hs2 : cached b h2 sym2)
    (hc1 : h1.counts b c) (hc2 : h2.counts b c') (hN : c + N ≤ c')
    (hr : c' < 2 ^ counter_bits b) (hf : c' < 2 ^ num_bits b) (h53 : c' ≤ 2 ^ 53) :
    ∃ v1 v2, (prof_measure_allocations b h1 sym1).ret = some v1 ∧
      (prof_measure_allocations b h2 sym2).ret = some v2 ∧ v1 + N ≤ v2 := by
  have hle : c ≤ c' := le_trans (Nat.le_add_right c N) hN
  exact ⟨c, c',
    round_trip_exact_small b h1 sym1 c hen hs1 hc1 (lt_of_le_of_lt hle hr)
      (lt_of_le_of_lt hle hf) (le_trans hle h53),
    round_trip_exact_small b h2 sym2 c' hen hs2 hc2 hr hf h53, hN⟩

theorem measure_delta_up_to_2_pow_53_witness :
    ∃ v1 v2, (prof_measure_allocations build_direct (Host.ofCounter 1000) 0).ret = some v1 ∧
      (prof_measure_allocations build_direct (Host.ofCounter 1500) 0).ret = some v2 ∧
      v1 + 500 ≤ v2 :=
  measure_delta_up_to_2_pow_53 build_direct (Host.ofCounter 1000) (Host.ofCounter 1500) 0 0
    1000 1500 500 (by decide) (Or.inl rfl) (Or.inl rfl) (Host.ofCounter_counts _ _)
    (Host.ofCounter_counts _ _) (by decide) (by decide) (by decide) (by decide)

/-- C6, refuted as stated: with the direct query, a call at counter `2 ^ 53`, one allocation
(`N = 1`), and a call at counter `2 ^ 53 + 1` return the same value `2 ^ 53`, so the second
value is not at least the first plus 1. -/
theorem measure_delta_lost_above_2_pow_53 :
    MEASURE_ALLOCATIONS_ENABLED build_direct = true ∧
    (Host.ofCounter (2 ^ 53)).counts build_direct (2 ^ 53) ∧
    (Host.ofCounter (2 ^ 53 + 1)).counts build_direct (2 ^ 53 + 1) ∧
    2 ^ 53 + 1 ≤ 2 ^ 53 + 1 ∧
    2 ^ 53 + 1 < 2 ^ counter_bits build_direct ∧
    (prof_measure_allocations build_direct (Host.ofCounter (2 ^ 53)) 0).ret = some (2 ^ 53) ∧
    (prof_measure_allocations build_direct (Host.ofCounter (2 ^ 53 + 1)) 0).ret
      = some (2 ^ 53) ∧
    ¬ ∃ v1 v2,
      (prof_measure_allocations build_direct (Host.ofCounter (2 ^ 53)) 0).ret = some v1 ∧
      (prof_measure_allocations build_direct (Host.ofCounter (2 ^ 53 + 1)) 0).ret = some v2 ∧
      v1 + 1 ≤ v2 := by
  have e1 : (prof_measure_allocations build_direct (Host.ofCounter (2 ^ 53)) 0).ret
      = some (2 ^ 53) := by decide
  have e2 : (prof_measure_allocations build_direct (Host.ofCounter (2 ^ 53 + 1)) 0).ret
      = some (2 ^ 53) := by decide
  refine ⟨by decide, Host.ofCounter_counts _ _, Host.ofCounter_counts _ _, le_refl _,
    by decide, e1, e2, ?_⟩
  rintro ⟨v1, v2, h1, h2, hle⟩
  rw [e1] at h1
  rw [e2] at h2
  cases h1
  cases h2
  exact absurd hle (by decide)

/-- C10, as amended: in every supported build with `HAVE_LONG_LONG`, for every host counter
value `c` of the facility's return type, if `c ≤ 2 ^ 53` then `Allocations.measure` returns
exactly `c`, and if `c < 2 ^ 64 - 2 ^ 10` then it returns a value `v` that differs from `c`
by at most half of `2 ^ e`, where `e` is the number of bits of `c` beyond a 53-bit
significand, and so by at most `2 ^ 10`. -/
theorem measure_round_trip (b : Build) (h : Host) (sym c : Nat)
    (hen : MEASURE_ALLOCATIONS_ENABLED b = true) (hll : b.HAVE_LONG_LONG = true)
    (hs : cached b h sym) (hc : h.counts b c) (hr : c < 2 ^ counter_bits b) :
    (c ≤ 2 ^ 53 → (prof_measure_allocations b h sym).ret = some c) ∧
    (c < 2 ^ 64 - 2 ^ 10 → ∃ v, (prof_measure_allocations b h sym).ret = some v ∧
      (2 * v ≤ 2 * c + 2 ^ excessBits 971 c ∧ 2 * c ≤ 2 * v + 2 ^ excessBits 971 c) ∧
      (v ≤ c + 2 ^ 10 ∧ c ≤ v + 2 ^ 10)) := by
  have hnb : num_bits b = 64 := by
    unfold num_bits ULLONG_BITS
    rw [if_pos hll]
  have h64 : c < 2 ^ 64 := lt_of_lt_of_le hr (counter_bits_le b)
  have hret : (prof_measure_allocations b h sym).ret
      = double_to_uint (num_bits b) (uint_to_double c) := by
    unfold prof_measure_allocations
    simp only
    rw [measure_allocations_ret hen hs hc hr]
  constructor
  · intro h53
    rw [hret, uint_to_double_exact h53, hnb]
    exact double_to_uint_of_lt h64
  · intro ht
    refine ⟨uint_to_double c, ?_, roundAt_error _ c, uint_to_double_error h64⟩
    rw [hret, hnb]
    exact double_to_uint_of_lt (uint_to_double_lt ht)

theorem measure_round_trip_witness :
    (2 ^ 53 ≤ 2 ^ 53 →
      (prof_measure_allocations build_direct (Host.ofCounter (2 ^ 53)) 0).ret
        = some (2 ^ 53)) ∧
    (2 ^ 53 < 2 ^ 64 - 2 ^ 10 →
      ∃ v, (prof_measure_allocations build_direct (Host.ofCounter (2 ^ 53)) 0).ret
        = some v ∧
      (2 * v ≤ 2 * (2 ^ 53) + 2 ^ excessBits 971 (2 ^ 53) ∧
        2 * (2 ^ 53) ≤ 2 * v + 2 ^ excessBits 971 (2 ^ 53)) ∧
      (v ≤ 2 ^ 53 + 2 ^ 10 ∧ 2 ^ 53 ≤ v + 2 ^ 10)) :=
  measure_round_trip build_direct (Host.ofCounter (2 ^ 53)) 0 (2 ^ 53)
    (by decide) rfl (Or.inl rfl) (Host.ofCounter_counts _ _) (by decide)

/-- C10, refuted as stated: with the direct query and `HAVE_LONG_LONG`, at the counter value
`2 ^ 64 - 2 ^ 10` the `double` is `2 ^ 64` and the conversion back to `unsigned LONG_LONG`
has no defined result, so no returned value lies within `2 ^ 10` of the counter. -/
theorem measure_round_trip_undefined_near_top :
    MEASURE_ALLOCATIONS_ENABLED build_direct = true ∧
    build_direct.HAVE_LONG_LONG = true ∧
    (Host.ofCounter (2 ^ 64 - 2 ^ 10)).counts build_direct (2 ^ 64 - 2 ^ 10) ∧
    2 ^ 64 - 2 ^ 10 < 2 ^ counter_bits build_direct ∧
    ¬ ∃ v, (prof_measure_allocations build_direct (Host.ofCounter (2 ^ 64 - 2 ^ 10)) 0).ret
        = some v ∧ v ≤ 2 ^ 64 - 2 ^ 10 + 2 ^ 10 ∧ 2 ^ 64 - 2 ^ 10 ≤ v + 2 ^ 10 := by
  refine ⟨by decide, rfl, Host.ofCounter_counts _ _, by decide, ?_⟩
  rintro ⟨v, hv, -⟩
  have hn : (prof_measure_allocations build_direct (Host.ofCounter (2 ^ 64 - 2 ^ 10)) 0).ret
      = none := by decide
  rw [hn] at hv
  exact Option.noConfusion hv

/-- C2, as amended: for every build configuration, host and value of the cached symbol,
`measure_allocations` picks its source by priority. If the direct query exists it reads the
direct query and nothing else. Otherwise, if the statistics query exists and the version is
at least 20100, it reads the statistics query, under the cached symbol or, when none is
cached, under the symbol of the total-allocated-objects name. Otherwise it returns 0 and
calls nothing. -/
theorem measure_allocations_source (b : Build) (h : Host) (sym : Nat) :
    (b.HAVE_RB_OS_ALLOCATED_OBJECTS = true →
      (measure_allocations b h sym).calls = [HostCall.rb_os_allocated_objects] ∧
      (measure_allocations b h sym).ret
        = uint_to_double (h.rb_os_allocated_objects % 2 ^ ULLONG_BITS)) ∧
    (b.HAVE_RB_OS_ALLOCATED_OBJECTS = false → b.HAVE_RB_GC_STAT = true →
      20100 ≤ b.RUBY_PROF_RUBY_VERSION →
      ∃ key, key = (if sym = 0 then
            h.ID2SYM (h.rb_intern_const (TOTAL_ALLOCATED_OBJECTS_STRING b.RUBY_PROF_RUBY_VERSION))
          else sym) ∧
        (measure_allocations b h sym).calls.filter HostCall.isCounterRead
          = [HostCall.rb_gc_stat key] ∧
        (measure_allocations b h sym).ret
          = uint_to_double (h.rb_gc_stat key % 2 ^ b.size_t.bits)) ∧
    (b.HAVE_RB_OS_ALLOCATED_OBJECTS = false →
      (b.HAVE_RB_GC_STAT = false ∨ b.RUBY_PROF_RUBY_VERSION < 20100) →
      (measure_allocations b h sym).calls = [] ∧ (measure_allocations b h sym).ret = 0) := by
  refine ⟨?_, ?_, ?_⟩
  · intro hd
    rw [measure_allocations_direct h sym hd]
    exact ⟨rfl, rfl⟩
  · intro hd hg hv
    by_cases hs : sym = 0
    · subst hs
      rw [if_pos rfl, measure_allocations_gc_stat_first h hd hg hv]
      exact ⟨_, rfl, rfl, rfl⟩
    · rw [if_neg hs, measure_allocations_gc_stat_cached h hd hg hv hs]
      exact ⟨_, rfl, rfl, rfl⟩
  · intro hd hno
    have hen : MEASURE_ALLOCATIONS_ENABLED b = false := by
      unfold MEASURE_ALLOCATIONS_ENABLED
      rcases hno with hg | hv
      · simp [hd, hg]
      · simp [hd, Nat.not_le.mpr hv]
    rw [measure_allocations_disabled h sym hen]
    exact ⟨rfl, rfl⟩

theorem measure_allocations_source_witness :
    (measure_allocations build_gc_stat (Host.ofCounter 42) 0).calls.filter
        HostCall.isCounterRead = [HostCall.rb_gc_stat 5900] ∧
    (measure_allocations build_gc_stat (Host.ofCounter 42) 0).ret = 42 := by
  obtain ⟨key, hk, hcalls, hret⟩ :=
    (measure_allocations_source build_gc_stat (Host.ofCounter 42) 0).2.1 rfl rfl
      (by decide)
  have hkey : key = 5900 := by
    rw [hk]
    decide
  subst hkey
  exact ⟨hcalls, by rw [hret]; decide⟩

/-- C2, refuted as stated: in a build where the direct query is absent and the statistics
query exists, with version number 20000, `measure_allocations` does not read the statistics
query; it calls nothing and returns 0 although the host counter holds 7. -/
theorem measure_allocations_skips_gc_stat_before_2_1 :
    build_gc_stat_old.HAVE_RB_OS_ALLOCATED_OBJECTS = false ∧
    build_gc_stat_old.HAVE_RB_GC_STAT = true ∧
    (measure_allocations build_gc_stat_old (Host.ofCounter 7) 0).calls = [] ∧
    (measure_allocations build_gc_stat_old (Host.ofCounter 7) 0).ret = 0 :=
  ⟨rfl, rfl, by decide, by decide⟩

/-- C3: in a build where the host exposes neither the direct query nor the statistics query,
for every sequence of host states and every value of the cached symbol, every call of
`measure` in the sequence returns exactly 0, no call reaches the host, and the constant
`ALLOCATIONS_ENABLED` is false. -/
theorem measure_zero_when_unsupported (b : Build) (MEASURE_ALLOCATIONS : Int) (sym : Nat)
    (hs : List Host)
    (hd : b.HAVE_RB_OS_ALLOCATED_OBJECTS = false) (hg : b.HAVE_RB_GC_STAT = false) :
    (prof_measure_allocations_seq b sym hs).map (fun r => r.ret)
      = List.replicate hs.length (some 0) ∧
    trace (prof_measure_allocations_seq b sym hs) = [] ∧
    ALLOCATIONS_ENABLED b MEASURE_ALLOCATIONS = some (RConst.bool false) := by
  have hen : MEASURE_ALLOCATIONS_ENABLED b = false := by
    unfold MEASURE_ALLOCATIONS_ENABLED
    simp [hd, hg]
  have hstep : ∀ (h : Host) (s : Nat), prof_measure_allocations b h s
      = { ret := some 0, total_alloc_symbol := s, calls := [] } := by
    intro h s
    unfold prof_measure_allocations
    rw [measure_allocations_disabled h s hen]
    simp only [double_to_uint_of_lt (zero_lt_num_bits b)]
  refine ⟨?_, ?_, ?_⟩
  · induction hs generalizing sym with
    | nil => rfl
    | cons h t ih =>
      simp only [prof_measure_allocations_seq, hstep, List.map_cons, List.length_cons,
        List.replicate_succ, ih]
  · induction hs generalizing sym with
    | nil => rfl
    | cons h t ih =>
      simp only [prof_measure_allocations_seq, hstep, trace, ih, List.append_nil]
  · unfold ALLOCATIONS_ENABLED rp_init_measure_allocations
    rw [hen]
    rfl

theorem measure_zero_when_unsupported_witness :
    (prof_measure_allocations_seq build_none 5
        [Host.ofCounter 10, Host.ofCounter 99, Host.ofCounter (2 ^ 64 - 1)]).map
      (fun r => r.ret)
      = List.replicate [Host.ofCounter 10, Host.ofCounter 99,
          Host.ofCounter (2 ^ 64 - 1)].length (some 0) ∧
    trace (prof_measure_allocations_seq build_none 5
        [Host.ofCounter 10, Host.ofCounter 99, Host.ofCounter (2 ^ 64 - 1)]) = [] ∧
    ALLOCATIONS_ENABLED build_none 3 = some (RConst.bool false) :=
  measure_zero_when_unsupported build_none 3 5
    [Host.ofCounter 10, Host.ofCounter 99, Host.ofCounter (2 ^ 64 - 1)] rfl rfl

/-- C4, as amended: for every build configuration the constant `ALLOCATIONS_ENABLED` is true
if and only if the direct query is available, or the statistics query is available and the
version is at least 20100; it is otherwise false; and it is true exactly when
`measure_allocations` reads a host counter, whereas when it is false `measure_allocations`
returns the constant 0 without calling the host. -/
theorem allocations_enabled_iff (b : Build) (MEASURE_ALLOCATIONS : Int) (h : Host) (sym : Nat) :
    (ALLOCATIONS_ENABLED b MEASURE_ALLOCATIONS = some (RConst.bool true) ↔
      (b.HAVE_RB_OS_ALLOCATED_OBJECTS = true ∨
        (b.HAVE_RB_GC_STAT = true ∧ 20100 ≤ b.RUBY_PROF_RUBY_VERSION))) ∧
    (ALLOCATIONS_ENABLED b MEASURE_ALLOCATIONS = some (RConst.bool true) ∨
      ALLOCATIONS_ENABLED b MEASURE_ALLOCATIONS = some (RConst.bool false)) ∧
    (ALLOCATIONS_ENABLED b MEASURE_ALLOCATIONS = some (RConst.bool true) ↔
      (measure_allocations b h sym).calls.any HostCall.isCounterRead = true) ∧
    (ALLOCATIONS_ENABLED b MEASURE_ALLOCATIONS = some (RConst.bool false) →
      (measure_allocations b h sym).ret = 0 ∧ (measure_allocations b h sym).calls = []) := by
  have hflag : ALLOCATIONS_ENABLED b MEASURE_ALLOCATIONS
      = some (RConst.bool (MEASURE_ALLOCATIONS_ENABLED b)) := rfl
  rw [hflag]
  cases hen : MEASURE_ALLOCATIONS_ENABLED b
  · have hm := measure_allocations_disabled h sym hen
    unfold MEASURE_ALLOCATIONS_ENABLED at hen
    rw [hm]
    refine ⟨?_, Or.inr rfl, ?_, fun _ => ⟨rfl, rfl⟩⟩
    · split_ifs at hen with h1 h2
      simp only [Bool.and_eq_true, decide_eq_true_eq] at h2
      constructor
      · intro hc
        cases hc
      · rintro (hd | hgv)
        · exact absurd hd h1
        · exact absurd hgv h2
    · constructor
      · intro hc
        cases hc
      · intro hc
        cases hc
  · refine ⟨?_, Or.inl rfl, ?_, fun hc => by cases hc⟩
    · unfold MEASURE_ALLOCATIONS_ENABLED at hen
      split_ifs at hen with h1 h2
      · exact ⟨fun _ => Or.inl h1, fun _ => rfl⟩
      · simp only [Bool.and_eq_true, decide_eq_true_eq] at h2
        exact ⟨fun _ => Or.inr h2, fun _ => rfl⟩
    · refine ⟨fun _ => ?_, fun _ => rfl⟩
      unfold MEASURE_ALLOCATIONS_ENABLED at hen
      unfold measure_allocations
      split_ifs at hen ⊢ <;> rfl

theorem allocations_enabled_iff_witness :
    ALLOCATIONS_ENABLED build_gc_stat 3 = some (RConst.bool true) ∧
    (measure_allocations build_gc_stat (Host.ofCounter 42) 0).calls.any
      HostCall.isCounterRead = true := by
  have h := allocations_enabled_iff build_gc_stat 3 (Host.ofCounter 42) 0
  have hen : ALLOCATIONS_ENABLED build_gc_stat 3 = some (RConst.bool true) :=
    h.1.mpr (Or.inr ⟨rfl, by decide⟩)
  exact ⟨hen, h.2.2.1.mp hen⟩

/-- C4, refuted as stated: in a build where the statistics query is available, with version
number 20000, the constant `ALLOCATIONS_ENABLED` is false. -/
theorem allocations_disabled_with_gc_stat_before_2_1 :
    build_gc_stat_old.HAVE_RB_GC_STAT = true ∧
    ALLOCATIONS_ENABLED build_gc_stat_old 3 = some (RConst.bool false) ∧
    ALLOCATIONS_ENABLED build_gc_stat_old 3 ≠ some (RConst.bool true) :=
  ⟨rfl, by decide, by decide⟩

/-- C8: in the statistics build (no direct query, `rb_gc_stat` present, version at least
20100), if the symbol `key` interned on the first call is non-zero, then over any sequence of
`n ≥ 1` calls of `measure_allocations` starting with `total_alloc_symbol = 0`, every call
returns, the name lookup is performed exactly once, on the first call, the cached symbol is
`key` after every call, and every call, the first included, passes `key` to `rb_gc_stat`. -/
theorem symbol_looked_up_once (b : Build) (h : Host) (hs : List Host) (key : Nat)
    (hd : b.HAVE_RB_OS_ALLOCATED_OBJECTS = false) (hg : b.HAVE_RB_GC_STAT = true)
    (hv : 20100 ≤ b.RUBY_PROF_RUBY_VERSION)
    (hkey : h.ID2SYM (h.rb_intern_const
      (TOTAL_ALLOCATED_OBJECTS_STRING b.RUBY_PROF_RUBY_VERSION)) = key)
    (h0 : key ≠ 0) :
    (measure_allocations_seq b 0 (h :: hs)).length = hs.length + 1 ∧
    ((trace (measure_allocations_seq b 0 (h :: hs))).filter HostCall.isLookup).length = 1 ∧
    (∃ r rest, measure_allocations_seq b 0 (h :: hs) = r :: rest ∧
      r.calls = [HostCall.rb_intern_const
          (TOTAL_ALLOCATED_OBJECTS_STRING b.RUBY_PROF_RUBY_VERSION), HostCall.rb_gc_stat key] ∧
      ∀ r' ∈ rest, r'.calls = [HostCall.rb_gc_stat key]) ∧
    (∀ r ∈ measure_allocations_seq b 0 (h :: hs), r.total_alloc_symbol = key) := by
  have hseq : measure_allocations_seq b 0 (h :: hs) =
      { ret := uint_to_double (h.rb_gc_stat key % 2 ^ b.size_t.bits)
        total_alloc_symbol := key
        calls := [HostCall.rb_intern_const
          (TOTAL_ALLOCATED_OBJECTS_STRING b.RUBY_PROF_RUBY_VERSION), HostCall.rb_gc_stat key] }
      :: hs.map (fun h' =>
        ({ ret := uint_to_double (h'.rb_gc_stat key % 2 ^ b.size_t.bits)
           total_alloc_symbol := key
           calls := [HostCall.rb_gc_stat key] } : Outcome Nat)) := by
    simp only [measure_allocations_seq, measure_allocations_gc_stat_first h hd hg hv, hkey,
      measure_allocations_seq_cached hs hd hg hv h0]
  rw [hseq]
  refine ⟨by simp, ?_, ⟨_, _, rfl, rfl, ?_⟩, ?_⟩
  · simp only [trace, List.filter_append, trace_map_no_lookup, List.append_nil]
    rfl
  · intro r' hr'
    obtain ⟨h', -, rfl⟩ := List.mem_map.mp hr'
    rfl
  · intro r hr
    rcases List.mem_cons.mp hr with rfl | hr'
    · rfl
    · obtain ⟨h', -, rfl⟩ := List.mem_map.mp hr'
      rfl

theorem symbol_looked_up_once_witness :
    (measure_allocations_seq build_gc_stat 0
      (Host.ofCounter 10 :: [Host.ofCounter 11, Host.ofCounter 40])).length
      = [Host.ofCounter 11, Host.ofCounter 40].length + 1 ∧
    ((trace (measure_allocations_seq build_gc_stat 0
      (Host.ofCounter 10 :: [Host.ofCounter 11, Host.ofCounter 40]))).filter
        HostCall.isLookup).length = 1 ∧
    (∃ r rest, measure_allocations_seq build_gc_stat 0
        (Host.ofCounter 10 :: [Host.ofCounter 11, Host.ofCounter 40]) = r :: rest ∧
      r.calls = [HostCall.rb_intern_const
          (TOTAL_ALLOCATED_OBJECTS_STRING build_gc_stat.RUBY_PROF_RUBY_VERSION),
        HostCall.rb_gc_stat 5900] ∧
      ∀ r' ∈ rest, r'.calls = [HostCall.rb_gc_stat 5900]) ∧
    (∀ r ∈ measure_allocations_seq build_gc_stat 0
        (Host.ofCounter 10 :: [Host.ofCounter 11, Host.ofCounter 40]),
      r.total_alloc_symbol = 5900) :=
  symbol_looked_up_once build_gc_stat (Host.ofCounter 10)
    [Host.ofCounter 11, Host.ofCounter 40] 5900 rfl rfl (by decide) (by decide) (by decide)

/-- C9: in the statistics build, for every version number `v ≥ 20100`, the name looked up on
a call with nothing cached is "total_allocated_objects" if `v ≥ 20200` and
"total_allocated_object" if `v < 20200`; whatever is cached, no other name is looked up; so
the name is a function of `v` alone. -/
theorem statistic_key_by_version (b : Build) (h : Host) (sym : Nat)
    (hd : b.HAVE_RB_OS_ALLOCATED_OBJECTS = false) (hg : b.HAVE_RB_GC_STAT = true)
    (hv : 20100 ≤ b.RUBY_PROF_RUBY_VERSION) :
    (20200 ≤ b.RUBY_PROF_RUBY_VERSION →
      (measure_allocations b h 0).calls.filter HostCall.isLookup
        = [HostCall.rb_intern_const "total_allocated_objects"]) ∧
    (b.RUBY_PROF_RUBY_VERSION < 20200 →
      (measure_allocations b h 0).calls.filter HostCall.isLookup
        = [HostCall.rb_intern_const "total_allocated_object"]) ∧
    (∀ name, HostCall.rb_intern_const name ∈ (measure_allocations b h sym).calls →
      name = if 20200 ≤ b.RUBY_PROF_RUBY_VERSION then "total_allocated_objects"
        else "total_allocated_object") := by
  refine ⟨?_, ?_, ?_⟩
  · intro h2
    rw [measure_allocations_gc_stat_first h hd hg hv]
    unfold TOTAL_ALLOCATED_OBJECTS_STRING
    rw [if_pos h2]
    rfl
  · intro h2
    rw [measure_allocations_gc_stat_first h hd hg hv]
    unfold TOTAL_ALLOCATED_OBJECTS_STRING
    rw [if_neg (Nat.not_le.mpr h2)]
    rfl
  · intro name hmem
    by_cases hs : sym = 0
    · subst hs
      rw [measure_allocations_gc_stat_first h hd hg hv] at hmem
      simp only [List.mem_cons, HostCall.rb_intern_const.injEq, List.mem_singleton,
        reduceCtorEq, or_false, List.not_mem_nil] at hmem
      rw [hmem]
      rfl
    · rw [measure_allocations_gc_stat_cached h hd hg hv hs] at hmem
      simp only [List.mem_singleton, reduceCtorEq] at hmem

theorem statistic_key_by_version_witness :
    (20200 ≤ build_gc_stat.RUBY_PROF_RUBY_VERSION →
      (measure_allocations build_gc_stat (Host.ofCounter 8) 0).calls.filter HostCall.isLookup
        = [HostCall.rb_intern_const "total_allocated_objects"]) ∧
    (build_gc_stat.RUBY_PROF_RUBY_VERSION < 20200 →
      (measure_allocations build_gc_stat (Host.ofCounter 8) 0).calls.filter HostCall.isLookup
        = [HostCall.rb_intern_const "total_allocated_object"]) ∧
    (∀ name, HostCall.rb_intern_const name
        ∈ (measure_allocations build_gc_stat (Host.ofCounter 8) 0).calls →
      name = if 20200 ≤ build_gc_stat.RUBY_PROF_RUBY_VERSION then "total_allocated_objects"
        else "total_allocated_object") :=
  statistic_key_by_version build_gc_stat (Host.ofCounter 8) 0 rfl rfl (by decide)

end RubyProf
